import Mathlib

/-!
Verification development for the messaging-apis repository.

The development shallowly embeds the pieces of the repository that carry
behavioral content:

* the batch-error classifier `getErrorMessage` / `isError613`
  (messaging-api-messenger batch error helpers);
* the response-processing and request-building phases of
  `SlackOAuthClient.callMethod`;
* the Messenger quick-reply helpers `validateQuickReplies` / `createMessage`;
* the LINE client error path `handleError` and the 404 handling of
  `getUserProfile` / `getRichMenu`;
* the deep key-case transformer (`snakecaseKeysDeep` / `camelcaseKeysDeep`
  from messaging-api-common).  The transformer implementation itself is not
  part of the provided sources, only its callers and tests are; those
  definitions are modelled from the specification text (see the doc
  comments marked "Modelled from the spec").

JavaScript data is embedded as a `Json` tree.  JavaScript numbers are
modelled as exact decimal values `num n e` (meaning `n * 10 ^ e`, with the
mantissa normalized so no trailing zeros remain); this replaces IEEE-754
doubles by exact decimals, which agrees with JavaScript on every value the
claims touch.  Strings are Lean strings (`\u` escapes that would produce a
lone UTF-16 surrogate are mapped to the null character).  Exceptions are
modelled with `Except`: a `.error` result is a thrown exception.
-/

/-- ASCII lower-casing of a single character, the case mapping used by the
key-case transformer.  Characters outside A-Z are returned unchanged. -/
def lowerChar : Char → Char
  | 'A' => 'a' | 'B' => 'b' | 'C' => 'c' | 'D' => 'd' | 'E' => 'e' | 'F' => 'f'
  | 'G' => 'g' | 'H' => 'h' | 'I' => 'i' | 'J' => 'j' | 'K' => 'k' | 'L' => 'l'
  | 'M' => 'm' | 'N' => 'n' | 'O' => 'o' | 'P' => 'p' | 'Q' => 'q' | 'R' => 'r'
  | 'S' => 's' | 'T' => 't' | 'U' => 'u' | 'V' => 'v' | 'W' => 'w' | 'X' => 'x'
  | 'Y' => 'y' | 'Z' => 'z'
  | c => c

/-- ASCII upper-casing of a single character. -/
def upperChar : Char → Char
  | 'a' => 'A' | 'b' => 'B' | 'c' => 'C' | 'd' => 'D' | 'e' => 'E' | 'f' => 'F'
  | 'g' => 'G' | 'h' => 'H' | 'i' => 'I' | 'j' => 'J' | 'k' => 'K' | 'l' => 'L'
  | 'm' => 'M' | 'n' => 'N' | 'o' => 'O' | 'p' => 'P' | 'q' => 'Q' | 'r' => 'R'
  | 's' => 'S' | 't' => 'T' | 'u' => 'U' | 'v' => 'V' | 'w' => 'W' | 'x' => 'X'
  | 'y' => 'Y' | 'z' => 'Z'
  | c => c

/-- Uppercase-letter test (ASCII A-Z), the boundary test of the camel-to-snake
key rewrite. -/
def isUpperCh : Char → Bool
  | 'A' | 'B' | 'C' | 'D' | 'E' | 'F' | 'G' | 'H' | 'I' | 'J' | 'K' | 'L' | 'M'
  | 'N' | 'O' | 'P' | 'Q' | 'R' | 'S' | 'T' | 'U' | 'V' | 'W' | 'X' | 'Y' | 'Z' => true
  | _ => false

/-- JavaScript/JSON value trees.  `num n e` is the exact decimal
`n * 10 ^ e` with `n` carrying no trailing zeros (and `0` represented as
`num 0 0`); `obj` carries its fields in insertion order, keys unique by
construction in every object this development builds. -/
inductive Json where
  | null
  | bool (b : Bool)
  | num (n : Int) (e : Int)
  | str (s : String)
  | arr (xs : List Json)
  | obj (kvs : List (String × Json))

/-- Result of a JavaScript property read: either a `Json` value or
JavaScript `undefined` (which JSON trees themselves cannot contain). -/
inductive JsVal where
  | undefined
  | val (j : Json)

/-- Keys of an object field list, in order. -/
def keys (l : List (String × Json)) : List String := l.map Prod.fst

/-- First-match association lookup, the semantics of reading a property of a
JavaScript object whose field list has unique keys. -/
def lookupKey : List (String × Json) → String → Option Json
  | [], _ => none
  | (k', v) :: rest, k => if k' = k then some v else lookupKey rest k

/-- JavaScript property assignment `o[k] = v` on an object represented as an
ordered field list: an existing key keeps its position and gets the new
value, a new key is appended. -/
def setKey : List (String × Json) → String → Json → List (String × Json)
  | [], k, v => [(k, v)]
  | (k', v') :: rest, k, v => if k' = k then (k, v) :: rest else (k', v') :: setKey rest k v

/-- Number of fields carrying the key `k`. -/
def countKey (l : List (String × Json)) (k : String) : Nat :=
  (l.filter (fun p => p.1 = k)).length

/-- JavaScript truthiness of a JSON value. -/
def truthy : Json → Bool
  | .null => false
  | .bool b => b
  | .num n _ => !(n = 0)
  | .str s => !(s = "")
  | .arr _ => true
  | .obj _ => true

/-- JavaScript truthiness of a property-read result (`undefined` is falsy). -/
def truthyVal : JsVal → Bool
  | .undefined => false
  | .val j => truthy j

/-- Rendering of the exact-decimal numbers of the model.  Integers render exactly
as JavaScript renders them; non-integer values use a mantissa-exponent form.
No rendering contains the character `#`, which is the only fact the
error-code classifier observes about numbers. -/
def numToString (n e : Int) : String :=
  if e = 0 then toString n else toString n ++ "e" ++ toString e

mutual
/-- JavaScript `String(x)` coercion of a JSON value: `null`, booleans and
numbers render to their literal text, arrays join their elements with commas
(with `null` elements rendering empty, as in JavaScript), plain objects
render as "[object Object]". -/
def jsToStringJson : Json → String
  | .null => "null"
  | .bool true => "true"
  | .bool false => "false"
  | .num n e => numToString n e
  | .str s => s
  | .arr xs => joinElems xs
  | .obj _ => "[object Object]"

/-- Comma-join of array elements under `String(...)`, with `null` elements
contributing the empty string. -/
def joinElems : List Json → String
  | [] => ""
  | [.null] => ""
  | [x] => jsToStringJson x
  | .null :: xs => "," ++ joinElems xs
  | x :: xs => jsToStringJson x ++ "," ++ joinElems xs
end

/-- JavaScript `String(x)` coercion of a property-read result. -/
def jsToString : JsVal → String
  | .undefined => "undefined"
  | .val j => jsToStringJson j

/-- JSON whitespace skipping (space, tab, newline, carriage return). -/
def skipWs : List Char → List Char
  | c :: cs => if c = ' ' ∨ c = '\t' ∨ c = '\n' ∨ c = '\r' then skipWs cs else c :: cs
  | [] => []

/-- ASCII digit test on character codes. -/
def isDigitCh (c : Char) : Bool := decide (48 ≤ c.toNat ∧ c.toNat ≤ 57)

/-- Hexadecimal digit value, for `\u` escapes. -/
def hexVal (c : Char) : Option Nat :=
  if 48 ≤ c.toNat ∧ c.toNat ≤ 57 then some (c.toNat - 48)
  else if 97 ≤ c.toNat ∧ c.toNat ≤ 102 then some (c.toNat - 87)
  else if 65 ≤ c.toNat ∧ c.toNat ≤ 70 then some (c.toNat - 55)
  else none

/-- Body of a JSON string literal after the opening quote: collects
characters (accumulator reversed), resolving the JSON escapes and rejecting
raw control characters, until the closing quote. -/
def parseStrAux : List Char → List Char → Option (String × List Char)
  | _, [] => none
  | acc, c :: cs =>
    if c = '"' then some (String.mk acc.reverse, cs)
    else if c = '\\' then
      match cs with
      | [] => none
      | e :: cs2 =>
        match e with
        | '"' => parseStrAux ('"' :: acc) cs2
        | '\\' => parseStrAux ('\\' :: acc) cs2
        | '/' => parseStrAux ('/' :: acc) cs2
        | 'b' => parseStrAux ('\x08' :: acc) cs2
        | 'f' => parseStrAux ('\x0C' :: acc) cs2
        | 'n' => parseStrAux ('\n' :: acc) cs2
        | 'r' => parseStrAux ('\r' :: acc) cs2
        | 't' => parseStrAux ('\t' :: acc) cs2
        | 'u' =>
          match cs2 with
          | h1 :: h2 :: h3 :: h4 :: cs3 =>
            match hexVal h1, hexVal h2, hexVal h3, hexVal h4 with
            | some a, some b, some c3, some d =>
              parseStrAux (Char.ofNat (((a * 16 + b) * 16 + c3) * 16 + d) :: acc) cs3
            | _, _, _, _ => none
          | _ => none
        | _ => none
    else if c.toNat < 32 then none
    else parseStrAux (c :: acc) cs

/-- Longest digit run at the head of the input. -/
def spanDigits : List Char → List Char × List Char
  | [] => ([], [])
  | c :: cs =>
    if isDigitCh c then
      let r := spanDigits cs
      (c :: r.1, r.2)
    else ([], c :: cs)

/-- Decimal value of a digit run. -/
def digitsToNat (l : List Char) : Nat :=
  l.foldl (fun n c => n * 10 + (c.toNat - 48)) 0

/-- Removes trailing decimal zeros from a nonzero mantissa, shifting them
into the exponent; the first argument is recursion fuel. -/
def stripZeros : Nat → Int → Int → Int × Int
  | 0, n, e => (n, e)
  | f + 1, n, e => if n % 10 = 0 then stripZeros f (n / 10) (e + 1) else (n, e)

/-- Normalized exact-decimal constructor: zero is `num 0 0`, every other
value has a mantissa with no trailing zeros. -/
def mkNum (n e : Int) : Json :=
  if n = 0 then .num 0 0
  else
    let p := stripZeros n.natAbs n e
    .num p.1 p.2

/-- JSON number literal: optional sign, integer part without a spurious
leading zero, optional fraction, optional exponent; the parsed value is the
exact decimal the literal denotes. -/
def parseNumber (cs0 : List Char) : Option (Json × List Char) :=
  let signed : Bool × List Char :=
    match cs0 with
    | '-' :: r => (true, r)
    | _ => (false, cs0)
  match spanDigits signed.2 with
  | ([], _) => none
  | (ids, r1) =>
    if 1 < ids.length ∧ ids.headD 'x' = '0' then none
    else
      let fracPart : Option (List Char × List Char) :=
        match r1 with
        | '.' :: r =>
          match spanDigits r with
          | ([], _) => none
          | (fds, rr) => some (fds, rr)
        | _ => some ([], r1)
      match fracPart with
      | none => none
      | some (fds, r2) =>
        let expPart : Option (Int × List Char) :=
          match r2 with
          | 'e' :: r | 'E' :: r =>
            let esigned : Int × List Char :=
              match r with
              | '+' :: rr => (1, rr)
              | '-' :: rr => (-1, rr)
              | _ => (1, r)
            match spanDigits esigned.2 with
            | ([], _) => none
            | (eds, rr) => some (esigned.1 * (digitsToNat eds : Int), rr)
          | _ => some (0, r2)
        match expPart with
        | none => none
        | some (ex, r3) =>
          let m : Nat := digitsToNat (ids ++ fds)
          let mi : Int := if signed.1 then -(m : Int) else (m : Int)
          some (mkNum mi (ex - (fds.length : Int)), r3)

mutual
/-- One JSON value (fueled recursive-descent): a keyword, string, number,
array or object, with leading whitespace skipped. -/
def parseVal : Nat → List Char → Option (Json × List Char)
  | 0, _ => none
  | f + 1, cs =>
    match skipWs cs with
    | 'n' :: 'u' :: 'l' :: 'l' :: r => some (.null, r)
    | 't' :: 'r' :: 'u' :: 'e' :: r => some (.bool true, r)
    | 'f' :: 'a' :: 'l' :: 's' :: 'e' :: r => some (.bool false, r)
    | '"' :: r =>
      match parseStrAux [] r with
      | some (s, r2) => some (.str s, r2)
      | none => none
    | '[' :: r =>
      (match skipWs r with
       | ']' :: r2 => some (.arr [], r2)
       | r2 =>
         match parseElems f r2 with
         | some (xs, r3) => some (.arr xs, r3)
         | none => none)
    | '{' :: r =>
      (match skipWs r with
       | '}' :: r2 => some (.obj [], r2)
       | r2 =>
         match parseMembers f r2 [] with
         | some (kvs, r3) => some (.obj kvs, r3)
         | none => none)
    | c :: r => if c = '-' ∨ isDigitCh c then parseNumber (c :: r) else none
    | [] => none

/-- Comma-separated array elements up to the closing bracket. -/
def parseElems : Nat → List Char → Option (List Json × List Char)
  | 0, _ => none
  | f + 1, cs =>
    match parseVal f cs with
    | none => none
    | some (v, r) =>
      match skipWs r with
      | ',' :: r2 =>
        (match parseElems f r2 with
         | some (xs, r3) => some (v :: xs, r3)
         | none => none)
      | ']' :: r2 => some ([v], r2)
      | _ => none

/-- Comma-separated object members up to the closing brace; duplicate keys
follow JavaScript assignment (last value wins, first position kept). -/
def parseMembers : Nat → List Char → List (String × Json) → Option (List (String × Json) × List Char)
  | 0, _, _ => none
  | f + 1, cs, acc =>
    match skipWs cs with
    | '"' :: r =>
      (match parseStrAux [] r with
       | some (k, r2) =>
         (match skipWs r2 with
          | ':' :: r3 =>
            (match parseVal f r3 with
             | some (v, r4) =>
               (match skipWs r4 with
                | ',' :: r5 => parseMembers f r5 (setKey acc k v)
                | '}' :: r5 => some (setKey acc k v, r5)
                | _ => none)
             | none => none)
          | _ => none)
       | none => none)
    | _ => none
end

/-- Model of JavaScript `JSON.parse`: `none` is a thrown `SyntaxError`.
The whole input must be consumed up to trailing whitespace. -/
def parseJson (s : String) : Option Json :=
  match parseVal (2 * s.data.length + 8) s.data with
  | some (j, r) => if skipWs r = [] then some j else none
  | none => none

/-- Modelled from the spec: the camel-to-snake key rewrite of the
KeyCaseTransformer (`snakecase-keys` used by messaging-api-common, whose
implementation is not among the provided sources).  Scanning the key, an
underscore is inserted before each uppercase letter except at position 0,
and every letter is lower-cased; the flag tracks whether the current
character is at position 0. -/
def snakecaseAux : Bool → List Char → List Char
  | _, [] => []
  | isFirst, c :: cs =>
    if isUpperCh c then
      if isFirst then lowerChar c :: snakecaseAux false cs
      else '_' :: lowerChar c :: snakecaseAux false cs
    else lowerChar c :: snakecaseAux false cs

/-- Modelled from the spec: camel-to-snake rewrite of one mapping key. -/
def snakecaseKey (k : String) : String := String.mk (snakecaseAux true k.data)

/-- Splits a character list on underscores; an input with no underscore
yields a single segment, and consecutive, leading or trailing underscores
yield empty segments. -/
def splitUnderscore : List Char → List (List Char)
  | [] => [[]]
  | c :: cs =>
    match splitUnderscore cs with
    | [] => if c = '_' then [[], []] else [[c]]
    | s :: rest => if c = '_' then [] :: s :: rest else (c :: s) :: rest

/-- Upper-cases the first character of a segment, leaving the rest as is. -/
def upperFirstSeg : List Char → List Char
  | [] => []
  | c :: cs => upperChar c :: cs

/-- Modelled from the spec: the snake-to-camel key rewrite of the
KeyCaseTransformer.  The key is split on underscores; the first segment is
lower-cased, each later non-empty segment gets its first character
upper-cased, and empty segments are preserved as literal underscores; the
segments are concatenated with no separator. -/
def camelcaseKey (k : String) : String :=
  match splitUnderscore k.data with
  | [] => ""
  | s0 :: rest =>
    String.mk (s0.map lowerChar ++
      (rest.map fun s => if s.isEmpty then ['_'] else upperFirstSeg s).flatten)

mutual
/-- Modelled from the spec: `snakecaseKeysDeep` of messaging-api-common.
Rewrites every mapping key toward snake_case, recursing into nested
mappings, element-wise over sequences, leaving scalars unchanged.  Objects
are rebuilt by JavaScript assignment (`setKey`), so keys colliding after the
rewrite follow last-value-wins semantics. -/
def snakecaseKeysDeep : Json → Json
  | .null => .null
  | .bool b => .bool b
  | .num n e => .num n e
  | .str s => .str s
  | .arr xs => .arr (snakeList xs)
  | .obj kvs => .obj (snakeObj [] kvs)

/-- Element-wise snake conversion of a sequence. -/
def snakeList : List Json → List Json
  | [] => []
  | x :: xs => snakecaseKeysDeep x :: snakeList xs

/-- Field-by-field snake conversion of a mapping, assigning into a fresh
object. -/
def snakeObj : List (String × Json) → List (String × Json) → List (String × Json)
  | acc, [] => acc
  | acc, (k, v) :: rest => snakeObj (setKey acc (snakecaseKey k) (snakecaseKeysDeep v)) rest
end

mutual
/-- Modelled from the spec: `camelcaseKeysDeep` of messaging-api-common,
the snake-to-camel direction of the deep key rewrite. -/
def camelcaseKeysDeep : Json → Json
  | .null => .null
  | .bool b => .bool b
  | .num n e => .num n e
  | .str s => .str s
  | .arr xs => .arr (camelList xs)
  | .obj kvs => .obj (camelObj [] kvs)

/-- Element-wise camel conversion of a sequence. -/
def camelList : List Json → List Json
  | [] => []
  | x :: xs => camelcaseKeysDeep x :: camelList xs

/-- Field-by-field camel conversion of a mapping, assigning into a fresh
object. -/
def camelObj : List (String × Json) → List (String × Json) → List (String × Json)
  | acc, [] => acc
  | acc, (k, v) :: rest => camelObj (setKey acc (camelcaseKey k) (camelcaseKeysDeep v)) rest
end

mutual
/-- Well-formedness for the round-trip claim: every mapping in the tree has
pairwise-distinct keys, each key is a fixed point of the camel-after-snake
composition, and the condition holds recursively. -/
def roundKeyed : Json → Bool
  | .null => true
  | .bool _ => true
  | .num _ _ => true
  | .str _ => true
  | .arr xs => roundKeyedList xs
  | .obj kvs => decide ((keys kvs).Nodup) && roundKeyedObj kvs

/-- Sequence case of `roundKeyed`. -/
def roundKeyedList : List Json → Bool
  | [] => true
  | x :: xs => roundKeyed x && roundKeyedList xs

/-- Mapping case of `roundKeyed`. -/
def roundKeyedObj : List (String × Json) → Bool
  | [] => true
  | (k, v) :: rest =>
    decide (camelcaseKey (snakecaseKey k) = k) && roundKeyed v && roundKeyedObj rest
end

/-- The `response` carried by a batch-request error item; `body` is the raw
response body string (read by the batch error helpers as
`errInfo.response.body`). -/
structure BatchResponse where
  body : String

/-- Input of the batch error classifier (`BatchRequestErrorInfo`). -/
structure BatchRequestErrorInfo where
  response : BatchResponse

/-- The try-block of `getErrorMessage`: the parse of the response body, the
read of its error property, the destructuring of message out of it, and
the return of message.  `none` means an exception was thrown inside the block:
the parse failed, or reading `.error` on a non-object parse result `null`
threw, or destructuring `message` out of `undefined`/`null` threw.  When
the block returns, the result is the `message` property as a JavaScript
value, which is `undefined` when the `error` value has no `message`
property. -/
def getErrorMessageTry (body : String) : Option JsVal :=
  match parseJson body with
  | none => none
  | some .null => none
  | some (.obj kvs) =>
    match lookupKey kvs "error" with
    | none => none
    | some .null => none
    | some (.obj ekvs) =>
      match lookupKey ekvs "message" with
      | some m => some (.val m)
      | none => some .undefined
    | some _ => some .undefined
  | some _ => none

/-- Model of `getErrorMessage` of the batch error helpers: runs the
try-block and returns the empty string whenever it threw. -/
def getErrorMessage (errInfo : BatchRequestErrorInfo) : JsVal :=
  match getErrorMessageTry errInfo.response.body with
  | some v => v
  | none => .val (.str "")

/-- Model of `isError613`: the literal regular expression tested against the
extracted message; a literal-pattern test is exactly substring containment
of "#613" in the `String(...)` coercion of the message. -/
def isError613 (errInfo : BatchRequestErrorInfo) : Bool :=
  decide ("#613".data <:+: (jsToString (getErrorMessage errInfo)).data)

/-- Axios request configuration carried by a response, kept abstract as the
method called and the serialized body posted. -/
structure RequestConfig where
  methodName : String
  postedBody : String

/-- An HTTP response as the Slack client sees it: parsed JSON `data` plus
the request context axios attaches. -/
structure AxiosResponse where
  data : Json
  config : RequestConfig
  request : String

/-- Model of the `axios-error` exception value: a message plus the
`config` / `request` / `response` context copied from the wrapped error. -/
structure AxiosErrorModel where
  message : String
  config : Option RequestConfig
  request : Option String
  response : Option AxiosResponse

/-- Property read used by `callMethod` on its camel-cased `data` value:
reading from `null` throws (modelled by the caller), reading a missing key
or reading on a primitive or array gives `undefined`. -/
def jsProp (j : Json) (k : String) : JsVal :=
  match j with
  | .obj kvs =>
    match lookupKey kvs k with
    | some v => .val v
    | none => .undefined
  | _ => .undefined

/-- Response-processing phase of `SlackOAuthClient.callMethod`: the response
data is camel-cased; when its `ok` member is falsy an `AxiosError` is built
with message "Slack API - " followed by the coerced `error` member and with
the config, request and response of the HTTP response attached, and the outer catch
rethrows it as a fresh `AxiosError` with the same message and context.  When
`data` is `null`, reading `data.ok` throws a `TypeError`, which the outer
catch wraps with no HTTP context.  When `ok` is truthy the camel-cased data
is returned. -/
def callMethodOnResponse (response : AxiosResponse) : Except AxiosErrorModel Json :=
  match camelcaseKeysDeep response.data with
  | .null =>
    .error { message := "Cannot read properties of null (reading ok)",
             config := none, request := none, response := none }
  | d =>
    if truthyVal (jsProp d "ok") then .ok d
    else
      let inner : AxiosErrorModel :=
        { message := "Slack API - " ++ jsToString (jsProp d "error"),
          config := some response.config, request := some response.request,
          response := some response }
      .error { message := inner.message, config := inner.config,
               request := inner.request, response := inner.response }

/-- First-truthy choice, JavaScript `a || b` where `a` is a property-read
result. -/
def jsOr (a : Option Json) (b : Json) : Json :=
  match a with
  | some v => if truthy v then v else b
  | none => b

/-- The token `callMethod` places in the posted body:
`inputBody.accessToken || inputBody.token || this._token`. -/
def callMethodToken (clientToken : String) (inputBody : List (String × Json)) : Json :=
  jsOr (lookupKey inputBody "accessToken")
    (jsOr (lookupKey inputBody "token") (.str clientToken))

/-- The body object `callMethod` builds before snake-casing: a spread of
the input body with the keys token and accessToken omitted, followed by the
assignment of the chosen token. -/
def callMethodBodyList (clientToken : String) (inputBody : List (String × Json)) :
    List (String × Json) :=
  inputBody.filter (fun p => ¬(p.1 = "token") ∧ ¬(p.1 = "accessToken"))
    ++ [("token", callMethodToken clientToken inputBody)]

/-- Request-building phase of `SlackOAuthClient.callMethod`: the field list
of `snakecaseKeysDeep(body)`, the mapping that `querystring.stringify`
serializes onto the wire. -/
def callMethodWireBody (clientToken : String) (inputBody : List (String × Json)) :
    List (String × Json) :=
  snakeObj [] (callMethodBodyList clientToken inputBody)

/-- A Messenger quick reply as the validation code reads it: a content type
plus optional `title` and `payload` (absent fields are JavaScript
`undefined`). -/
structure QuickReply where
  content_type : String
  title : Option String
  payload : Option String
  image_url : Option String
  deriving DecidableEq

/-- A Messenger message under construction: the fields `createMessage`
copies and the optional `quick_replies` it may attach. -/
structure MessengerMessage where
  text : Option String
  attachment : Option Json
  quick_replies : Option (List QuickReply)

/-- JavaScript whitespace trim on the character list of a string (the
`title.trim()` call). -/
def jsTrim (s : String) : String :=
  String.mk (((s.data.dropWhile Char.isWhitespace).reverse.dropWhile
    Char.isWhitespace).reverse)

/-- The title invariant of a text quick reply:
`quickReply.title && quickReply.title.trim().length <= 20` (a missing or
empty title is falsy). -/
def titleOk (q : QuickReply) : Bool :=
  match q.title with
  | none => false
  | some t => !(t = "") && (jsTrim t).data.length ≤ 20

/-- The payload invariant of a text quick reply:
`quickReply.payload && quickReply.payload.length <= 1000`. -/
def payloadOk (q : QuickReply) : Bool :=
  match q.payload with
  | none => false
  | some p => !(p = "") && p.data.length ≤ 1000

/-- Per-element pass of `validateQuickReplies`: `invariant` throws the named
message on the first text quick reply whose title or payload check fails. -/
def validateEach : List QuickReply → Except String Unit
  | [] => .ok ()
  | q :: rest =>
    if q.content_type = "text" then
      if titleOk q then
        if payloadOk q then validateEach rest
        else .error "payload of quick reply has a 1000 character limit"
      else .error "title of quick reply has a 20 character limit, after that it gets truncated"
    else validateEach rest

/-- Model of `validateQuickReplies`: the length invariant (at most 11), then the
per-element invariants; a thrown `invariant` is an `.error`. -/
def validateQuickReplies (quickReplies : List QuickReply) : Except String Unit :=
  if quickReplies.length ≤ 11 then validateEach quickReplies
  else .error "quick_replies is an array and limited to 11"

/-- Model of `createMessage`: copies the message, and when quick replies are
a non-empty array, validates it and assigns it onto the copy (overwriting
any `quick_replies` the input message carried). -/
def createMessage (msg : MessengerMessage) (optQuickReplies : Option (List QuickReply)) :
    Except String MessengerMessage :=
  match optQuickReplies with
  | some qrs =>
    if 1 ≤ qrs.length then
      match validateQuickReplies qrs with
      | .ok _ => .ok { msg with quick_replies := some qrs }
      | .error e => .error e
  else .ok msg
  | none => .ok msg

/-- The quick-reply conditions exactly as the claim states them, written
independently of the fold in `validateEach`: at most 11 entries, and every
text entry has a present, non-empty title whose trimmed length is at most 20
and a present, non-empty payload of length at most 1000. -/
def goodQuickReplies (qrs : List QuickReply) : Bool :=
  qrs.length ≤ 11 &&
    qrs.all fun q => !(q.content_type = "text") || (titleOk q && payloadOk q)

/-- One `- property: message` detail line of a LINE error body. -/
structure LineErrorDetail where
  property : String
  message : String

/-- The `response.data` of a LINE platform error. -/
structure LineErrorData where
  message : String
  details : Option (List LineErrorDetail)

/-- The HTTP response attached to a LINE request error. -/
structure LineResponse where
  status : Int
  data : Option LineErrorData

/-- An axios error in the LINE client: a message plus the optional response
(`axios-error` copies the response of a wrapped error onto the wrapper). -/
structure LineAxiosError where
  message : String
  response : Option LineResponse

/-- Model of the LINE `handleError`, returning the `AxiosError` it throws:
when the error carries `response.data`, the message is "LINE API - " plus
the platform message with one "\n- property: message" line per detail;
otherwise the original message is kept.  The response carried by the
wrapped error is carried over. -/
def handleError (err : LineAxiosError) : LineAxiosError :=
  match err.response with
  | some resp =>
    match resp.data with
    | some d =>
      let base := "LINE API - " ++ d.message
      let msg :=
        match d.details with
        | some ds =>
          if 0 < ds.length then
            ds.foldl (fun m det => m ++ "\n- " ++ det.property ++ ": " ++ det.message) base
          else base
        | none => base
      { message := msg, response := err.response }
    | none => { message := err.message, response := err.response }
  | none => { message := err.message, response := err.response }

/-- Model of `LineClient.getUserProfile` downstream of the HTTP call: on success the
response data is returned; on failure the rejection handler `handleError`
throws a wrapped error, and the trailing `.catch` turns it into a normal
`null` return when the carried response has status 404, rethrowing through
`handleError` otherwise. -/
def getUserProfile (httpResult : Except LineAxiosError Json) : Except LineAxiosError JsVal :=
  match httpResult with
  | .ok d => .ok (.val d)
  | .error err =>
    let wrapped := handleError err
    match wrapped.response with
    | some resp =>
      if resp.status = 404 then .ok (.val .null) else .error (handleError wrapped)
    | none => .error (handleError wrapped)

/-- Model of `LineClient.getRichMenu` downstream of the HTTP call: like
`getUserProfile` but with no rejection handler on the `.then`, so the
trailing `.catch` sees the raw error. -/
def getRichMenu (httpResult : Except LineAxiosError Json) : Except LineAxiosError JsVal :=
  match httpResult with
  | .ok d => .ok (.val d)
  | .error err =>
    match err.response with
    | some resp =>
      if resp.status = 404 then .ok (.val .null) else .error (handleError err)
    | none => .error (handleError err)

/-- Success test on a thrown-or-returned computation. -/
def isOkB {ε α : Type} : Except ε α → Bool
  | .ok _ => true
  | .error _ => false

theorem isUpperCh_lowerChar (c : Char) : isUpperCh (lowerChar c) = false := by
  unfold lowerChar
  split <;> first | rfl | (unfold isUpperCh; split <;> simp_all)

theorem lowerChar_of_not_upper (c : Char) (h : isUpperCh c = false) : lowerChar c = c := by
  unfold isUpperCh at h
  unfold lowerChar
  split <;> simp_all

theorem keys_nil : keys [] = [] := rfl

theorem keys_cons (k : String) (v : Json) (l : List (String × Json)) :
    keys ((k, v) :: l) = k :: keys l := rfl

theorem keys_append (l₁ l₂ : List (String × Json)) :
    keys (l₁ ++ l₂) = keys l₁ ++ keys l₂ := by
  simp [keys]

theorem mem_keys_iff (l : List (String × Json)) (a : String) :
    a ∈ keys l ↔ ∃ p ∈ l, p.1 = a := by
  simp only [keys, List.mem_map]

theorem setKey_cons_pos (k' : String) (v' : Json) (rest : List (String × Json))
    (k : String) (v : Json) (h : k' = k) :
    setKey ((k', v') :: rest) k v = (k, v) :: rest := by
  simp [setKey, h]

theorem setKey_cons_neg (k' : String) (v' : Json) (rest : List (String × Json))
    (k : String) (v : Json) (h : ¬(k' = k)) :
    setKey ((k', v') :: rest) k v = (k', v') :: setKey rest k v := by
  simp [setKey, h]

theorem snakecaseAux_cons_upper_true (c : Char) (cs : List Char) (h : isUpperCh c = true) :
    snakecaseAux true (c :: cs) = lowerChar c :: snakecaseAux false cs := by
  simp [snakecaseAux, h]

theorem snakecaseAux_cons_upper_false (c : Char) (cs : List Char) (h : isUpperCh c = true) :
    snakecaseAux false (c :: cs) = '_' :: lowerChar c :: snakecaseAux false cs := by
  simp [snakecaseAux, h]

theorem snakecaseAux_cons_nupper (c : Char) (cs : List Char) (b : Bool)
    (h : isUpperCh c = false) :
    snakecaseAux b (c :: cs) = lowerChar c :: snakecaseAux false cs := by
  cases b <;> simp [snakecaseAux, h]

theorem snakecaseAux_not_upper :
    ∀ (cs : List Char) (b : Bool) (c : Char), c ∈ snakecaseAux b cs → isUpperCh c = false := by
  intro cs
  induction cs with
  | nil => intro b c h; simp [snakecaseAux] at h
  | cons c0 cs ih =>
    intro b c h
    by_cases hu : isUpperCh c0 = true
    · cases b
      · rw [snakecaseAux_cons_upper_false c0 cs hu, List.mem_cons, List.mem_cons] at h
        rcases h with rfl | rfl | h
        · rfl
        · exact isUpperCh_lowerChar c0
        · exact ih false c h
      · rw [snakecaseAux_cons_upper_true c0 cs hu, List.mem_cons] at h
        rcases h with rfl | h
        · exact isUpperCh_lowerChar c0
        · exact ih false c h
    · have hu' : isUpperCh c0 = false := by simpa using hu
      rw [snakecaseAux_cons_nupper c0 cs b hu', List.mem_cons] at h
      rcases h with rfl | h
      · exact isUpperCh_lowerChar c0
      · exact ih false c h

theorem snakecaseAux_fixed :
    ∀ (cs : List Char) (b : Bool), (∀ c ∈ cs, isUpperCh c = false) → snakecaseAux b cs = cs := by
  intro cs
  induction cs with
  | nil => intro b _; rfl
  | cons c0 cs ih =>
    intro b h
    have h0 : isUpperCh c0 = false := h c0 (by simp)
    rw [snakecaseAux_cons_nupper c0 cs b h0, lowerChar_of_not_upper c0 h0]
    rw [ih false (fun c hc => h c (by simp [hc]))]

theorem snakecaseKey_not_upper (k : String) :
    ∀ c ∈ (snakecaseKey k).data, isUpperCh c = false := by
  intro c hc
  exact snakecaseAux_not_upper k.data true c hc

theorem snakecaseKey_idem (k : String) : snakecaseKey (snakecaseKey k) = snakecaseKey k := by
  show String.mk (snakecaseAux true (snakecaseKey k).data) = snakecaseKey k
  rw [snakecaseAux_fixed _ _ (snakecaseKey_not_upper k)]

theorem snakecaseKey_ne_accessToken (k : String) : snakecaseKey k ≠ "accessToken" := by
  intro h
  have hT : 'T' ∈ (snakecaseKey k).data := by rw [h]; decide
  have := snakecaseKey_not_upper k 'T' hT
  simp [isUpperCh] at this

theorem mem_setKey (l : List (String × Json)) (k : String) (v : Json) (p : String × Json)
    (h : p ∈ setKey l k v) : p = (k, v) ∨ p ∈ l := by
  induction l with
  | nil =>
    simp [setKey] at h
    exact Or.inl h
  | cons q rest ih =>
    obtain ⟨k', v'⟩ := q
    by_cases he : k' = k
    · rw [setKey_cons_pos k' v' rest k v he, List.mem_cons] at h
      rcases h with h | h
      · exact Or.inl h
      · exact Or.inr (List.mem_cons_of_mem _ h)
    · rw [setKey_cons_neg k' v' rest k v he, List.mem_cons] at h
      rcases h with h | h
      · exact Or.inr (by simp [h])
      · rcases ih h with h2 | h2
        · exact Or.inl h2
        · exact Or.inr (List.mem_cons_of_mem _ h2)

theorem mem_keys_setKey (l : List (String × Json)) (k : String) (v : Json) (a : String) :
    a ∈ keys (setKey l k v) ↔ a = k ∨ a ∈ keys l := by
  induction l with
  | nil => simp [setKey, keys]
  | cons q rest ih =>
    obtain ⟨k', v'⟩ := q
    by_cases he : k' = k
    · subst he
      rw [setKey_cons_pos k' v' rest k' v rfl, keys_cons, keys_cons]
      simp only [List.mem_cons]
      tauto
    · rw [setKey_cons_neg k' v' rest k v he, keys_cons, keys_cons, List.mem_cons,
        List.mem_cons, ih]
      tauto

theorem nodup_keys_setKey (l : List (String × Json)) (k : String) (v : Json)
    (h : (keys l).Nodup) : (keys (setKey l k v)).Nodup := by
  induction l with
  | nil => simp [setKey, keys]
  | cons q rest ih =>
    obtain ⟨k', v'⟩ := q
    rw [keys_cons, List.nodup_cons] at h
    by_cases he : k' = k
    · subst he
      rw [setKey_cons_pos k' v' rest k' v rfl, keys_cons, List.nodup_cons]
      exact h
    · rw [setKey_cons_neg k' v' rest k v he, keys_cons, List.nodup_cons]
      refine ⟨fun hmem => ?_, ih h.2⟩
      rcases (mem_keys_setKey rest k v k').mp hmem with h2 | h2
      · exact he h2
      · exact h.1 h2

theorem setKey_of_not_mem (l : List (String × Json)) (k : String) (v : Json)
    (h : k ∉ keys l) : setKey l k v = l ++ [(k, v)] := by
  induction l with
  | nil => rfl
  | cons q rest ih =>
    obtain ⟨k', v'⟩ := q
    rw [keys_cons, List.mem_cons] at h
    push_neg at h
    rw [setKey_cons_neg k' v' rest k v (Ne.symm h.1), List.cons_append, ih h.2]

theorem snakeList_eq_map (xs : List Json) : snakeList xs = xs.map snakecaseKeysDeep := by
  induction xs with
  | nil => rfl
  | cons x xs ih => simp [snakeList, ih]

theorem camelList_eq_map (xs : List Json) : camelList xs = xs.map camelcaseKeysDeep := by
  induction xs with
  | nil => rfl
  | cons x xs ih => simp [camelList, ih]

theorem mem_snakeObj :
    ∀ (kvs acc : List (String × Json)) (p : String × Json), p ∈ snakeObj acc kvs →
      p ∈ acc ∨ ∃ q ∈ kvs, p = (snakecaseKey q.1, snakecaseKeysDeep q.2) := by
  intro kvs
  induction kvs with
  | nil => intro acc p h; exact Or.inl h
  | cons q0 rest ih =>
    obtain ⟨k, v⟩ := q0
    intro acc p h
    have h1 : p ∈ snakeObj (setKey acc (snakecaseKey k) (snakecaseKeysDeep v)) rest := h
    rcases ih _ p h1 with h2 | ⟨q, hq, hpe⟩
    · rcases mem_setKey _ _ _ p h2 with h3 | h3
      · exact Or.inr ⟨(k, v), by simp, h3⟩
      · exact Or.inl h3
    · exact Or.inr ⟨q, by simp [hq], hpe⟩

theorem nodup_keys_snakeObj :
    ∀ (kvs acc : List (String × Json)), (keys acc).Nodup → (keys (snakeObj acc kvs)).Nodup := by
  intro kvs
  induction kvs with
  | nil => intro acc h; exact h
  | cons q0 rest ih =>
    obtain ⟨k, v⟩ := q0
    intro acc h
    exact ih _ (nodup_keys_setKey acc _ _ h)

theorem snakeObj_fixed :
    ∀ (kvs acc : List (String × Json)), (keys kvs).Nodup →
      (∀ p ∈ kvs, snakecaseKey p.1 = p.1 ∧ snakecaseKeysDeep p.2 = p.2) →
      (∀ a ∈ keys kvs, a ∉ keys acc) →
      snakeObj acc kvs = acc ++ kvs := by
  intro kvs
  induction kvs with
  | nil => intro acc _ _ _; simp [snakeObj]
  | cons q0 rest ih =>
    obtain ⟨k, v⟩ := q0
    intro acc hnd hfix hdisj
    have hk : snakecaseKey k = k := (hfix (k, v) (by simp)).1
    have hv : snakecaseKeysDeep v = v := (hfix (k, v) (by simp)).2
    have hstep : snakeObj acc ((k, v) :: rest) = snakeObj (setKey acc k v) rest := by
      show snakeObj (setKey acc (snakecaseKey k) (snakecaseKeysDeep v)) rest = _
      rw [hk, hv]
    rw [keys_cons, List.nodup_cons] at hnd
    have hknotin : k ∉ keys acc := hdisj k (by simp [keys_cons])
    rw [hstep, setKey_of_not_mem acc k v hknotin]
    rw [ih (acc ++ [(k, v)]) hnd.2 (fun p hp => hfix p (by simp [hp])) ?_]
    · simp
    · intro a ha
      rw [keys_append]
      simp only [List.mem_append]
      push_neg
      constructor
      · exact hdisj a (by simp [keys_cons, ha])
      · intro hc
        simp [keys] at hc
        subst hc
        exact hnd.1 ha

theorem snakeObj_eq_map :
    ∀ (kvs acc : List (String × Json)),
      (kvs.map fun p => snakecaseKey p.1).Nodup →
      (∀ p ∈ kvs, snakecaseKey p.1 ∉ keys acc) →
      snakeObj acc kvs = acc ++ kvs.map (fun p => (snakecaseKey p.1, snakecaseKeysDeep p.2)) := by
  intro kvs
  induction kvs with
  | nil => intro acc _ _; simp [snakeObj]
  | cons q0 rest ih =>
    obtain ⟨k, v⟩ := q0
    intro acc hnd hdisj
    rw [List.map_cons, List.nodup_cons] at hnd
    have hstep : snakeObj acc ((k, v) :: rest) =
        snakeObj (setKey acc (snakecaseKey k) (snakecaseKeysDeep v)) rest := rfl
    have hknotin : snakecaseKey k ∉ keys acc := hdisj (k, v) (by simp)
    rw [hstep, setKey_of_not_mem acc _ _ hknotin]
    rw [ih (acc ++ [(snakecaseKey k, snakecaseKeysDeep v)]) hnd.2 ?_]
    · simp
    · intro p hp
      rw [keys_append]
      simp only [List.mem_append]
      push_neg
      refine ⟨hdisj p (by simp [hp]), ?_⟩
      intro hc
      simp [keys] at hc
      exact hnd.1 (by rw [← hc]; exact List.mem_map_of_mem _ hp)

theorem camelObj_eq_map :
    ∀ (kvs acc : List (String × Json)),
      (kvs.map fun p => camelcaseKey p.1).Nodup →
      (∀ p ∈ kvs, camelcaseKey p.1 ∉ keys acc) →
      camelObj acc kvs = acc ++ kvs.map (fun p => (camelcaseKey p.1, camelcaseKeysDeep p.2)) := by
  intro kvs
  induction kvs with
  | nil => intro acc _ _; simp [camelObj]
  | cons q0 rest ih =>
    obtain ⟨k, v⟩ := q0
    intro acc hnd hdisj
    rw [List.map_cons, List.nodup_cons] at hnd
    have hstep : camelObj acc ((k, v) :: rest) =
        camelObj (setKey acc (camelcaseKey k) (camelcaseKeysDeep v)) rest := rfl
    have hknotin : camelcaseKey k ∉ keys acc := hdisj (k, v) (by simp)
    rw [hstep, setKey_of_not_mem acc _ _ hknotin]
    rw [ih (acc ++ [(camelcaseKey k, camelcaseKeysDeep v)]) hnd.2 ?_]
    · simp
    · intro p hp
      rw [keys_append]
      simp only [List.mem_append]
      push_neg
      refine ⟨hdisj p (by simp [hp]), ?_⟩
      intro hc
      simp [keys] at hc
      exact hnd.1 (by rw [← hc]; exact List.mem_map_of_mem _ hp)

theorem snake_idem_aux :
    ∀ (n : Nat) (j : Json), sizeOf j ≤ n →
      snakecaseKeysDeep (snakecaseKeysDeep j) = snakecaseKeysDeep j := by
  intro n
  induction n using Nat.strong_induction_on with
  | _ n ih =>
    intro j hle
    cases j with
    | null => rfl
    | bool b => rfl
    | num a e => rfl
    | str s => rfl
    | arr xs =>
      show Json.arr (snakeList (snakeList xs)) = Json.arr (snakeList xs)
      congr 1
      rw [snakeList_eq_map, snakeList_eq_map, List.map_map]
      apply List.map_congr_left
      intro x hx
      have h1 := List.sizeOf_lt_of_mem hx
      have h2 : sizeOf (Json.arr xs) = 1 + sizeOf xs := by simp
      have hlt : sizeOf x < n := by omega
      exact ih (sizeOf x) hlt x le_rfl
    | obj kvs =>
      show Json.obj (snakeObj [] (snakeObj [] kvs)) = Json.obj (snakeObj [] kvs)
      congr 1
      have h1 : (keys (snakeObj [] kvs)).Nodup := nodup_keys_snakeObj kvs [] (by simp [keys])
      have h2 : ∀ p ∈ snakeObj [] kvs,
          snakecaseKey p.1 = p.1 ∧ snakecaseKeysDeep p.2 = p.2 := by
        intro p hp
        rcases mem_snakeObj kvs [] p hp with hc | ⟨q, hq, rfl⟩
        · simp at hc
        · refine ⟨snakecaseKey_idem q.1, ?_⟩
          have ha := List.sizeOf_lt_of_mem hq
          have hb : sizeOf (Json.obj kvs) = 1 + sizeOf kvs := by simp
          have hcp : sizeOf q = 1 + sizeOf q.1 + sizeOf q.2 := by
            obtain ⟨a, b⟩ := q
            simp
          have hlt : sizeOf q.2 < n := by omega
          exact ih (sizeOf q.2) hlt q.2 le_rfl
      have h3 := snakeObj_fixed (snakeObj [] kvs) [] h1 h2 (by simp [keys])
      rw [h3]
      simp

theorem snakecaseKeysDeep_idem (j : Json) :
    snakecaseKeysDeep (snakecaseKeysDeep j) = snakecaseKeysDeep j :=
  snake_idem_aux (sizeOf j) j le_rfl

theorem roundKeyedObj_spec :
    ∀ (kvs : List (String × Json)), roundKeyedObj kvs = true →
      ∀ p ∈ kvs, camelcaseKey (snakecaseKey p.1) = p.1 ∧ roundKeyed p.2 = true := by
  intro kvs
  induction kvs with
  | nil => intro _ p hp; simp at hp
  | cons q0 rest ih =>
    obtain ⟨k, v⟩ := q0
    intro h p hp
    simp only [roundKeyedObj, Bool.and_eq_true, decide_eq_true_eq] at h
    rcases List.mem_cons.mp hp with rfl | hp2
    · exact ⟨h.1.1, h.1.2⟩
    · exact ih h.2 p hp2

theorem roundKeyedList_spec :
    ∀ (xs : List Json), roundKeyedList xs = true → ∀ x ∈ xs, roundKeyed x = true := by
  intro xs
  induction xs with
  | nil => intro _ x hx; simp at hx
  | cons x0 rest ih =>
    intro h x hx
    simp only [roundKeyedList, Bool.and_eq_true] at h
    rcases List.mem_cons.mp hx with rfl | hx2
    · exact h.1
    · exact ih h.2 x hx2

theorem roundtrip_aux :
    ∀ (n : Nat) (j : Json), sizeOf j ≤ n → roundKeyed j = true →
      camelcaseKeysDeep (snakecaseKeysDeep j) = j := by
  intro n
  induction n using Nat.strong_induction_on with
  | _ n ih =>
    intro j hle hrk
    cases j with
    | null => rfl
    | bool b => rfl
    | num a e => rfl
    | str s => rfl
    | arr xs =>
      show Json.arr (camelList (snakeList xs)) = Json.arr xs
      congr 1
      rw [snakeList_eq_map, camelList_eq_map, List.map_map]
      have hpt := roundKeyedList_spec xs (by simpa [roundKeyed] using hrk)
      have : xs.map (camelcaseKeysDeep ∘ snakecaseKeysDeep) = xs.map id := by
        apply List.map_congr_left
        intro x hx
        have h1 := List.sizeOf_lt_of_mem hx
        have h2 : sizeOf (Json.arr xs) = 1 + sizeOf xs := by simp
        have hlt : sizeOf x < n := by omega
        exact ih (sizeOf x) hlt x le_rfl (hpt x hx)
      rw [this, List.map_id]
    | obj kvs =>
      simp only [roundKeyed, Bool.and_eq_true, decide_eq_true_eq] at hrk
      have hpt := roundKeyedObj_spec kvs hrk.2
      have hsnd : (kvs.map fun p => snakecaseKey p.1).Nodup := by
        have he : (kvs.map fun p => snakecaseKey p.1) = (keys kvs).map snakecaseKey := by
          simp [keys, List.map_map]
        rw [he]
        apply List.Nodup.map_on ?_ hrk.1
        intro x hx y hy heq
        obtain ⟨p, hp, rfl⟩ := (mem_keys_iff kvs x).mp hx
        obtain ⟨q, hq, rfl⟩ := (mem_keys_iff kvs y).mp hy
        have := congrArg camelcaseKey heq
        rwa [(hpt p hp).1, (hpt q hq).1] at this
      have hm1 := snakeObj_eq_map kvs [] hsnd (by simp [keys])
      rw [List.nil_append] at hm1
      have hcnd :
          ((kvs.map fun p => (snakecaseKey p.1, snakecaseKeysDeep p.2)).map
            fun p => camelcaseKey p.1).Nodup := by
        have he : ((kvs.map fun p => (snakecaseKey p.1, snakecaseKeysDeep p.2)).map
            fun p => camelcaseKey p.1) = kvs.map fun p => camelcaseKey (snakecaseKey p.1) := by
          simp [List.map_map]
        rw [he]
        have he2 : (kvs.map fun p => camelcaseKey (snakecaseKey p.1)) = keys kvs := by
          have := List.map_congr_left (fun p hp => (hpt p hp).1)
          rw [this]
          simp [keys]
        rw [he2]
        exact hrk.1
      have hm2 := camelObj_eq_map (kvs.map fun p => (snakecaseKey p.1, snakecaseKeysDeep p.2))
        [] hcnd (by simp [keys])
      rw [List.nil_append] at hm2
      show Json.obj (camelObj [] (snakeObj [] kvs)) = Json.obj kvs
      congr 1
      rw [hm1, hm2, List.map_map]
      have hfin : ∀ p ∈ kvs,
          ((fun p => (camelcaseKey p.1, camelcaseKeysDeep p.2)) ∘
            fun p => (snakecaseKey p.1, snakecaseKeysDeep p.2)) p = id p := by
        intro p hp
        have h1 := (hpt p hp).1
        have ha := List.sizeOf_lt_of_mem hp
        have hb : sizeOf (Json.obj kvs) = 1 + sizeOf kvs := by simp
        have hcp : sizeOf p = 1 + sizeOf p.1 + sizeOf p.2 := by
          obtain ⟨a, b⟩ := p
          simp
        have hlt : sizeOf p.2 < n := by omega
        have h2 := ih (sizeOf p.2) hlt p.2 le_rfl (hpt p hp).2
        obtain ⟨a, b⟩ := p
        simp only [Function.comp, id]
        simp only at h1 h2
        rw [h1, h2]
      rw [List.map_congr_left hfin, List.map_id]

theorem camel_snake_roundtrip (j : Json) (h : roundKeyed j = true) :
    camelcaseKeysDeep (snakecaseKeysDeep j) = j :=
  roundtrip_aux (sizeOf j) j le_rfl h

theorem lookupKey_eq_of_mem_nodup :
    ∀ (l : List (String × Json)) (k : String) (v : Json),
      (keys l).Nodup → (k, v) ∈ l → lookupKey l k = some v := by
  intro l
  induction l with
  | nil => intro k v _ hm; simp at hm
  | cons q rest ih =>
    obtain ⟨k', v'⟩ := q
    intro k v hnd hm
    rw [keys_cons, List.nodup_cons] at hnd
    rcases List.mem_cons.mp hm with he | hm2
    · obtain ⟨rfl, rfl⟩ := Prod.mk.injEq .. ▸ And.intro (congrArg Prod.fst he) (congrArg Prod.snd he)
      simp [lookupKey]
    · have hne : ¬(k' = k) := by
        intro he
        subst he
        exact hnd.1 ((mem_keys_iff rest k').mpr ⟨(k', v), hm2, rfl⟩)
      simp only [lookupKey, if_neg hne]
      exact ih k v hnd.2 hm2

theorem countKey_cons (k' : String) (v' : Json) (rest : List (String × Json)) (k : String) :
    countKey ((k', v') :: rest) k = (if k' = k then 1 else 0) + countKey rest k := by
  by_cases h : k' = k
  · simp [countKey, List.filter_cons, h]
    omega
  · simp [countKey, List.filter_cons, h]

theorem countKey_eq_zero (l : List (String × Json)) (k : String)
    (h : k ∉ keys l) : countKey l k = 0 := by
  induction l with
  | nil => rfl
  | cons q rest ih =>
    obtain ⟨k', v'⟩ := q
    rw [keys_cons, List.mem_cons] at h
    push_neg at h
    rw [countKey_cons, if_neg (Ne.symm h.1), ih h.2]

theorem countKey_eq_one (l : List (String × Json)) (k : String)
    (hnd : (keys l).Nodup) (h : k ∈ keys l) : countKey l k = 1 := by
  induction l with
  | nil => simp [keys] at h
  | cons q rest ih =>
    obtain ⟨k', v'⟩ := q
    rw [keys_cons, List.nodup_cons] at hnd
    rw [keys_cons, List.mem_cons] at h
    by_cases he : k' = k
    · subst he
      rw [countKey_cons, if_pos rfl, countKey_eq_zero rest k' hnd.1]
    · rcases h with h | h
      · exact absurd h.symm he
      · rw [countKey_cons, if_neg he, ih hnd.2 h]

theorem validateEach_ok (qrs : List QuickReply) :
    isOkB (validateEach qrs)
      = qrs.all fun q => !(q.content_type = "text") || (titleOk q && payloadOk q) := by
  induction qrs with
  | nil => rfl
  | cons q rest ih =>
    by_cases hct : q.content_type = "text"
    · by_cases ht : titleOk q = true
      · by_cases hp : payloadOk q = true
        · simp [validateEach, hct, ht, hp, ih]
        · rw [Bool.not_eq_true] at hp
          simp [validateEach, hct, ht, hp, isOkB]
      · rw [Bool.not_eq_true] at ht
        simp [validateEach, hct, ht, isOkB]
    · simp [validateEach, hct, ih]

theorem validateQuickReplies_ok (qrs : List QuickReply) :
    isOkB (validateQuickReplies qrs) = goodQuickReplies qrs := by
  unfold validateQuickReplies goodQuickReplies
  by_cases hl : qrs.length ≤ 11
  · simp [hl, validateEach_ok]
  · simp [hl, isOkB]

theorem validateQuickReplies_eq_ok_of_good (qrs : List QuickReply)
    (h : goodQuickReplies qrs = true) : validateQuickReplies qrs = .ok () := by
  have heq := validateQuickReplies_ok qrs
  rw [h] at heq
  cases hv : validateQuickReplies qrs with
  | ok u => cases u; rfl
  | error e => rw [hv] at heq; simp [isOkB] at heq

theorem handleError_response (err : LineAxiosError) :
    (handleError err).response = err.response := by
  obtain ⟨msg, ro⟩ := err
  cases ro with
  | none => rfl
  | some resp =>
    obtain ⟨st, da⟩ := resp
    cases da with
    | none => rfl
    | some d =>
      obtain ⟨dm, det⟩ := d
      cases det with
      | none => rfl
      | some ds => rfl

/-- C1: for every BatchRequestErrorInfo, `getErrorMessage` and `isError613`
terminate normally and never propagate an exception (they are total
functions of the embedding); in particular, whenever the response body is
not valid JSON, `getErrorMessage` returns the empty string and `isError613`
returns false. -/
theorem c1_classifier_never_throws (i : BatchRequestErrorInfo)
    (h : parseJson i.response.body = none) :
    getErrorMessage i = JsVal.val (Json.str "") ∧ isError613 i = false := by
  have hm : getErrorMessage i = JsVal.val (Json.str "") := by
    unfold getErrorMessage getErrorMessageTry
    rw [h]
  refine ⟨hm, ?_⟩
  unfold isError613
  rw [hm]
  rfl

/-- Witness for C1 at the body "not json". -/
theorem c1_witness :
    parseJson "not json" = none ∧
    getErrorMessage ⟨⟨"not json"⟩⟩ = JsVal.val (Json.str "") ∧
    isError613 ⟨⟨"not json"⟩⟩ = false :=
  ⟨rfl, (c1_classifier_never_throws ⟨⟨"not json"⟩⟩ rfl).1,
    (c1_classifier_never_throws ⟨⟨"not json"⟩⟩ rfl).2⟩

/-- C2 counterexample: on the body consisting of an error object with no
message field, `getErrorMessage` returns JavaScript `undefined`, not the
empty string the claim requires. -/
theorem c2_counterexample :
    getErrorMessage ⟨⟨"\x7b\"error\":\x7b\x7d\x7d"⟩⟩ = JsVal.undefined ∧
    JsVal.undefined ≠ JsVal.val (Json.str "") :=
  ⟨rfl, fun h => JsVal.noConfusion h⟩

/-- C2 amended: when the body parses to a JSON object, `getErrorMessage`
returns the value at `body.error.message` when the `error` member is an
object carrying a `message` member; it returns JavaScript `undefined`
(not the empty string) when the `error` member is a non-null value without
a `message` member; and it returns the empty string when the `error` member
is absent or null (the destructuring throws and is caught). -/
theorem c2_amended_message_extraction (i : BatchRequestErrorInfo)
    (kvs : List (String × Json))
    (h : parseJson i.response.body = some (Json.obj kvs)) :
    getErrorMessage i =
      match lookupKey kvs "error" with
      | some (Json.obj ekvs) =>
        (match lookupKey ekvs "message" with
         | some m => JsVal.val m
         | none => JsVal.undefined)
      | some Json.null => JsVal.val (Json.str "")
      | none => JsVal.val (Json.str "")
      | some _ => JsVal.undefined := by
  have hTry : getErrorMessageTry i.response.body =
      (match lookupKey kvs "error" with
       | none => none
       | some Json.null => none
       | some (Json.obj ekvs) =>
         (match lookupKey ekvs "message" with
          | some m => some (JsVal.val m)
          | none => some JsVal.undefined)
       | some _ => some JsVal.undefined) := by
    unfold getErrorMessageTry
    rw [h]
  unfold getErrorMessage
  rw [hTry]
  rcases lookupKey kvs "error" with _ | e
  · rfl
  · cases e with
    | null => rfl
    | bool b => rfl
    | num n x => rfl
    | str s => rfl
    | arr xs => rfl
    | obj ekvs =>
      show (match (match lookupKey ekvs "message" with
                   | some m => some (JsVal.val m)
                   | none => some JsVal.undefined) with
            | some v => v
            | none => JsVal.val (Json.str "")) =
          (match lookupKey ekvs "message" with
           | some m => JsVal.val m
           | none => JsVal.undefined)
      rcases lookupKey ekvs "message" with _ | m <;> rfl

/-- Witness for C2 at a body whose error object carries a message. -/
theorem c2_amended_witness :
    parseJson "\x7b\"error\":\x7b\"message\":\"hi\"\x7d\x7d"
      = some (Json.obj [("error", Json.obj [("message", Json.str "hi")])]) ∧
    getErrorMessage ⟨⟨"\x7b\"error\":\x7b\"message\":\"hi\"\x7d\x7d"⟩⟩
      = JsVal.val (Json.str "hi") :=
  ⟨rfl, c2_amended_message_extraction ⟨⟨"\x7b\"error\":\x7b\"message\":\"hi\"\x7d\x7d"⟩⟩
    [("error", Json.obj [("message", Json.str "hi")])] rfl⟩

/-- C3: `isError613` returns true exactly when the token "#613" occurs as a
substring (list infix) of the `String(...)` coercion of the message
extracted by `getErrorMessage`; and the documented example body yields
true.  Both functions are plain functions of their argument. -/
theorem c3_isError613_substring :
    (∀ i : BatchRequestErrorInfo,
      isError613 i = true ↔ "#613".data <:+: (jsToString (getErrorMessage i)).data) ∧
    isError613 ⟨⟨"\x7b\"error\":\x7b\"message\":\"Error #613 occurred\"\x7d\x7d"⟩⟩ = true := by
  constructor
  · intro i
    unfold isError613
    exact decide_eq_true_iff
  · rfl

/-- C4 counterexample: key-case conversion toward camelCase is not
idempotent: on the mapping with single key "a_b", one conversion yields key
"aB" while converting again lower-cases the first segment to "ab". -/
theorem c4_counterexample :
    camelcaseKeysDeep (camelcaseKeysDeep (Json.obj [("a_b", Json.num 1 0)])) ≠
      camelcaseKeysDeep (Json.obj [("a_b", Json.num 1 0)]) := by
  intro h
  have h1 : camelcaseKeysDeep (camelcaseKeysDeep (Json.obj [("a_b", Json.num 1 0)]))
      = Json.obj [("ab", Json.num 1 0)] := rfl
  have h2 : camelcaseKeysDeep (Json.obj [("a_b", Json.num 1 0)])
      = Json.obj [("aB", Json.num 1 0)] := rfl
  rw [h1, h2] at h
  have h3 := congrArg
    (fun j => match j with
      | Json.obj ((k, _) :: _) => k
      | _ => "") h
  simp only at h3
  exact absurd h3 (by decide)

/-- C4 amended: the key-case conversion toward snake_case is idempotent on
every value: applying `snakecaseKeysDeep` twice gives the same result as
applying it once.  (Toward camelCase idempotence fails, see the
counterexample.) -/
theorem c4_amended_snake_idempotent (j : Json) :
    snakecaseKeysDeep (snakecaseKeysDeep j) = snakecaseKeysDeep j :=
  snakecaseKeysDeep_idem j

/-- C5: the snake-to-camel conversion rewrites keys per the split /
lower-first-segment / capitalize-later-segments rule, deeply through nested
mappings, element-wise over sequences, and leaves non-key values (scalars)
unchanged; in particular the documented examples hold. -/
theorem c5_camel_rewrite :
    camelcaseKeysDeep (Json.obj [("user_id", Json.num 1 0), ("profile_pic", Json.str "x")])
      = Json.obj [("userId", Json.num 1 0), ("profilePic", Json.str "x")] ∧
    camelcaseKeysDeep (Json.arr [Json.obj [("a_b", Json.num 1 0)]])
      = Json.arr [Json.obj [("aB", Json.num 1 0)]] ∧
    camelcaseKeysDeep (Json.obj [("outer_key", Json.obj [("inner_key", Json.bool true)])])
      = Json.obj [("outerKey", Json.obj [("innerKey", Json.bool true)])] ∧
    (∀ s, camelcaseKeysDeep (Json.str s) = Json.str s) ∧
    (∀ n e, camelcaseKeysDeep (Json.num n e) = Json.num n e) ∧
    (∀ b, camelcaseKeysDeep (Json.bool b) = Json.bool b) ∧
    camelcaseKeysDeep Json.null = Json.null :=
  ⟨rfl, rfl, rfl, fun _ => rfl, fun _ _ => rfl, fun _ => rfl, rfl⟩

/-- C6: for every value whose mappings have pairwise-distinct keys each
unchanged by the camel-after-snake composition (no ambiguous casing),
converting camelCase keys to snake_case and back yields the original
value. -/
theorem c6_camel_snake_roundtrip (j : Json) (h : roundKeyed j = true) :
    camelcaseKeysDeep (snakecaseKeysDeep j) = j :=
  camel_snake_roundtrip j h

/-- Witness for C6 at the documented mapping, including its snake_case
wire form. -/
theorem c6_witness :
    roundKeyed (Json.obj [("userId", Json.num 1 0), ("profilePic", Json.str "x")]) = true ∧
    snakecaseKeysDeep (Json.obj [("userId", Json.num 1 0), ("profilePic", Json.str "x")])
      = Json.obj [("user_id", Json.num 1 0), ("profile_pic", Json.str "x")] ∧
    camelcaseKeysDeep (snakecaseKeysDeep
        (Json.obj [("userId", Json.num 1 0), ("profilePic", Json.str "x")]))
      = Json.obj [("userId", Json.num 1 0), ("profilePic", Json.str "x")] :=
  ⟨by decide, rfl,
    c6_camel_snake_roundtrip (Json.obj [("userId", Json.num 1 0), ("profilePic", Json.str "x")])
      (by decide)⟩

/-- C7: on a response whose camel-cased data is an object, `callMethod`
throws when `ok` is false — the message of the thrown error is the prefix
Slack API followed by the coerced `error` member (so it contains the
platform error string), and it carries the original request config, the
request and the raw response — and returns the camel-cased data when `ok`
is true. -/
theorem c7_callMethod_failure_wrapped (resp : AxiosResponse) (kvs : List (String × Json))
    (h : camelcaseKeysDeep resp.data = Json.obj kvs) :
    match lookupKey kvs "ok" with
    | some (Json.bool false) =>
      callMethodOnResponse resp = .error
        { message := "Slack API - " ++ jsToString (jsProp (Json.obj kvs) "error"),
          config := some resp.config, request := some resp.request,
          response := some resp }
    | some (Json.bool true) => callMethodOnResponse resp = .ok (Json.obj kvs)
    | _ => True := by
  have hred : callMethodOnResponse resp =
      (if truthyVal (jsProp (Json.obj kvs) "ok") then Except.ok (Json.obj kvs)
       else .error
        { message := "Slack API - " ++ jsToString (jsProp (Json.obj kvs) "error"),
          config := some resp.config, request := some resp.request,
          response := some resp }) := by
    unfold callMethodOnResponse
    rw [h]
  rcases hok : lookupKey kvs "ok" with _ | v
  · trivial
  · have hprop : jsProp (Json.obj kvs) "ok" =
        (match lookupKey kvs "ok" with
         | some v => JsVal.val v
         | none => JsVal.undefined) := rfl
    cases v with
    | null => trivial
    | num n e => trivial
    | str s => trivial
    | arr xs => trivial
    | obj o => trivial
    | bool b =>
      cases b
      · show callMethodOnResponse resp = .error
          { message := "Slack API - " ++ jsToString (jsProp (Json.obj kvs) "error"),
            config := some resp.config, request := some resp.request,
            response := some resp }
        rw [hred, hprop, hok]
        rfl
      · show callMethodOnResponse resp = .ok (Json.obj kvs)
        rw [hred, hprop, hok]
        rfl

/-- Witness for C7 at a concrete failing response. -/
theorem c7_witness :
    callMethodOnResponse
      { data := Json.obj [("ok", Json.bool false), ("error", Json.str "boom")],
        config := { methodName := "chat.postMessage", postedBody := "token=t" },
        request := "req" }
      = .error
          { message := "Slack API - boom",
            config := some { methodName := "chat.postMessage", postedBody := "token=t" },
            request := some "req",
            response := some
              { data := Json.obj [("ok", Json.bool false), ("error", Json.str "boom")],
                config := { methodName := "chat.postMessage", postedBody := "token=t" },
                request := "req" } } :=
  c7_callMethod_failure_wrapped
    { data := Json.obj [("ok", Json.bool false), ("error", Json.str "boom")],
      config := { methodName := "chat.postMessage", postedBody := "token=t" },
      request := "req" }
    [("ok", Json.bool false), ("error", Json.str "boom")] rfl

/-- C8 counterexample: `getUserProfile` converts an HTTP 404 error response
into a normally returned `null` instead of raising it, contradicting the
claim that no method converts an error response into a normal return. -/
theorem c8_counterexample :
    getUserProfile (.error
        { message := "Request failed with status code 404",
          response := some { status := 404, data := none } }) = .ok (JsVal.val Json.null) ∧
    ∀ e : LineAxiosError,
      getUserProfile (.error
        { message := "Request failed with status code 404",
          response := some { status := 404, data := none } }) ≠ .error e :=
  ⟨rfl, fun _ h => Except.noConfusion h⟩

/-- C8 amended: platform errors are raised to the immediate caller with no
retry and no local recovery, except that `getUserProfile` and `getRichMenu`
return `null` normally on a carried HTTP 404; on every error whose carried
response is absent or has a status other than 404, both methods propagate
an error. -/
theorem c8_amended_errors_propagate (err : LineAxiosError)
    (h : ∀ resp, err.response = some resp → resp.status ≠ 404) :
    (∃ e, getUserProfile (.error err) = .error e) ∧
    (∃ e, getRichMenu (.error err) = .error e) := by
  constructor
  · show (∃ e, (match (handleError err).response with
      | some resp =>
        if resp.status = 404 then Except.ok (JsVal.val Json.null)
        else .error (handleError (handleError err))
      | none => .error (handleError (handleError err))) = .error e)
    rcases hr : (handleError err).response with _ | resp
    · exact ⟨_, rfl⟩
    · have hst : resp.status ≠ 404 := by
        have hre : (handleError err).response = err.response := handleError_response err
        exact h resp (by rw [← hre, hr])
      show (∃ e, (if resp.status = 404 then Except.ok (JsVal.val Json.null)
        else Except.error (handleError (handleError err))) = Except.error e)
      rw [if_neg hst]
      exact ⟨_, rfl⟩
  · show (∃ e, (match err.response with
      | some resp =>
        if resp.status = 404 then Except.ok (JsVal.val Json.null)
        else .error (handleError err)
      | none => .error (handleError err)) = .error e)
    rcases hr : err.response with _ | resp
    · exact ⟨_, rfl⟩
    · have hst : resp.status ≠ 404 := h resp hr
      show (∃ e, (if resp.status = 404 then Except.ok (JsVal.val Json.null)
        else Except.error (handleError err)) = Except.error e)
      rw [if_neg hst]
      exact ⟨_, rfl⟩

/-- Witness for C8 at an error carrying no response. -/
theorem c8_amended_witness :
    (∃ e, getUserProfile (.error { message := "boom", response := none }) = .error e) ∧
    (∃ e, getRichMenu (.error { message := "boom", response := none }) = .error e) :=
  c8_amended_errors_propagate { message := "boom", response := none }
    (fun _ hx => Option.noConfusion hx)

/-- C9 counterexample: with `accessToken` present but equal to the empty
string (falsy), the posted token is the stored client token, not
`inputBody.accessToken` as the claim requires for every present
`accessToken`. -/
theorem c9_counterexample :
    lookupKey [("accessToken", Json.str "")] "accessToken" = some (Json.str "") ∧
    lookupKey (callMethodWireBody "xoxb-client" [("accessToken", Json.str "")]) "token"
      = some (Json.str "xoxb-client") ∧
    Json.str "xoxb-client" ≠ Json.str "" := by
  refine ⟨rfl, rfl, fun h => ?_⟩
  exact absurd (Json.str.inj h) (by decide)

/-- C9 amended: whenever the snake-cased keys of the body `callMethod`
builds are pairwise distinct, the posted body contains exactly one `token`
field, equal to `inputBody.accessToken` when that is present and truthy,
else `inputBody.token` when present and truthy, else the stored client
token; the `accessToken` key is never on the wire; and every other field of
`inputBody` is passed through under its snake-cased key with its deeply
snake-cased value. -/
theorem c9_amended_token_on_wire (clientToken : String) (inputBody : List (String × Json))
    (hnd : ((callMethodBodyList clientToken inputBody).map fun p => snakecaseKey p.1).Nodup) :
    countKey (callMethodWireBody clientToken inputBody) "token" = 1 ∧
    lookupKey (callMethodWireBody clientToken inputBody) "token"
      = some (snakecaseKeysDeep (callMethodToken clientToken inputBody)) ∧
    "accessToken" ∉ keys (callMethodWireBody clientToken inputBody) ∧
    (∀ p ∈ inputBody, p.1 ≠ "token" → p.1 ≠ "accessToken" →
      lookupKey (callMethodWireBody clientToken inputBody) (snakecaseKey p.1)
        = some (snakecaseKeysDeep p.2)) := by
  have hwire : callMethodWireBody clientToken inputBody =
      (callMethodBodyList clientToken inputBody).map
        (fun p => (snakecaseKey p.1, snakecaseKeysDeep p.2)) := by
    have := snakeObj_eq_map (callMethodBodyList clientToken inputBody) [] hnd
      (by simp [keys])
    rw [List.nil_append] at this
    exact this
  have hkeys : keys (callMethodWireBody clientToken inputBody) =
      (callMethodBodyList clientToken inputBody).map fun p => snakecaseKey p.1 := by
    rw [hwire]
    simp [keys, List.map_map]
  have hkeysnd : (keys (callMethodWireBody clientToken inputBody)).Nodup := by
    rw [hkeys]; exact hnd
  have htokmem : ("token", callMethodToken clientToken inputBody)
      ∈ callMethodBodyList clientToken inputBody := by
    unfold callMethodBodyList
    simp
  have htokwire : ("token", snakecaseKeysDeep (callMethodToken clientToken inputBody))
      ∈ callMethodWireBody clientToken inputBody := by
    rw [hwire]
    have : ((fun p => (snakecaseKey p.1, snakecaseKeysDeep p.2))
        (("token", callMethodToken clientToken inputBody) : String × Json))
        ∈ (callMethodBodyList clientToken inputBody).map
          (fun p => (snakecaseKey p.1, snakecaseKeysDeep p.2)) :=
      List.mem_map_of_mem _ htokmem
    simpa using this
  have htokkey : "token" ∈ keys (callMethodWireBody clientToken inputBody) :=
    (mem_keys_iff _ "token").mpr ⟨_, htokwire, rfl⟩
  refine ⟨countKey_eq_one _ _ hkeysnd htokkey,
    lookupKey_eq_of_mem_nodup _ _ _ hkeysnd htokwire, ?_, ?_⟩
  · intro hmem
    obtain ⟨p, hp, hp1⟩ := (mem_keys_iff _ "accessToken").mp hmem
    rw [hwire] at hp
    obtain ⟨q, _, rfl⟩ := List.mem_map.mp hp
    exact snakecaseKey_ne_accessToken q.1 hp1
  · intro p hp hpt hpa
    have hpfil : p ∈ callMethodBodyList clientToken inputBody := by
      unfold callMethodBodyList
      rw [List.mem_append]
      exact Or.inl (List.mem_filter.mpr ⟨hp, by simp [hpt, hpa]⟩)
    have hpwire : (snakecaseKey p.1, snakecaseKeysDeep p.2)
        ∈ callMethodWireBody clientToken inputBody := by
      rw [hwire]
      exact List.mem_map_of_mem _ hpfil
    exact lookupKey_eq_of_mem_nodup _ _ _ hkeysnd hpwire

/-- Witness for C9 at a two-field body with the stored client token. -/
theorem c9_amended_witness :
    countKey (callMethodWireBody "xoxb-1"
      [("channel", Json.str "C123"), ("someField", Json.num 7 0)]) "token" = 1 ∧
    lookupKey (callMethodWireBody "xoxb-1"
        [("channel", Json.str "C123"), ("someField", Json.num 7 0)]) "token"
      = some (snakecaseKeysDeep (callMethodToken "xoxb-1"
          [("channel", Json.str "C123"), ("someField", Json.num 7 0)])) ∧
    "accessToken" ∉ keys (callMethodWireBody "xoxb-1"
      [("channel", Json.str "C123"), ("someField", Json.num 7 0)]) ∧
    lookupKey (callMethodWireBody "xoxb-1"
        [("channel", Json.str "C123"), ("someField", Json.num 7 0)]) (snakecaseKey "someField")
      = some (snakecaseKeysDeep (Json.num 7 0)) := by
  have h := c9_amended_token_on_wire "xoxb-1"
    [("channel", Json.str "C123"), ("someField", Json.num 7 0)] (by decide)
  exact ⟨h.1, h.2.1, h.2.2.1,
    h.2.2.2 ("someField", Json.num 7 0) (by simp) (by decide) (by decide)⟩

/-- C10 counterexample: when the input message already carries
`quick_replies` and the options carry a valid non-empty array,
`createMessage` returns normally but overwrites the input
`quick_replies` field, so not every field of the input message is preserved
unchanged. -/
theorem c10_counterexample :
    createMessage
        { text := some "t", attachment := none,
          quick_replies := some
            [{ content_type := "text", title := some "a",
               payload := some "p", image_url := none }] }
        (some [{ content_type := "text", title := some "b",
                 payload := some "q", image_url := none }])
      = .ok { text := some "t", attachment := none,
              quick_replies := some
                [{ content_type := "text", title := some "b",
                   payload := some "q", image_url := none }] } ∧
    some [({ content_type := "text", title := some "b",
             payload := some "q", image_url := none } : QuickReply)]
      ≠ some [({ content_type := "text", title := some "a",
                 payload := some "p", image_url := none } : QuickReply)] :=
  ⟨rfl, by decide⟩

/-- C10 amended: `createMessage` attaches `options.quick_replies` only when
it is a non-empty array; it returns normally exactly when the array passes
the quick-reply conditions (at most 11 entries, and each text entry a
present non-empty title of trimmed length at most 20 and a present
non-empty payload of length at most 1000), throwing otherwise; and in the
non-throwing case the text and attachment fields are preserved while
`quick_replies` is overwritten with the validated array (it is preserved
when no array is attached). -/
theorem c10_amended_createMessage (msg : MessengerMessage) :
    createMessage msg none = .ok msg ∧
    createMessage msg (some []) = .ok msg ∧
    ∀ qrs : List QuickReply, qrs ≠ [] →
      (isOkB (createMessage msg (some qrs)) = goodQuickReplies qrs ∧
       (goodQuickReplies qrs = true →
         createMessage msg (some qrs) = .ok { msg with quick_replies := some qrs })) := by
  refine ⟨rfl, rfl, fun qrs hne => ?_⟩
  have hlen : 1 ≤ qrs.length := List.length_pos.mpr hne
  have hred : createMessage msg (some qrs) =
      (match validateQuickReplies qrs with
       | .ok _ => .ok { msg with quick_replies := some qrs }
       | .error e => .error e) := by
    show (if 1 ≤ qrs.length then
        (match validateQuickReplies qrs with
         | Except.ok _ => Except.ok { msg with quick_replies := some qrs }
         | Except.error e => Except.error e)
      else Except.ok msg) =
      (match validateQuickReplies qrs with
       | Except.ok _ => Except.ok { msg with quick_replies := some qrs }
       | Except.error e => Except.error e)
    rw [if_pos hlen]
  constructor
  · rw [hred, ← validateQuickReplies_ok qrs]
    cases validateQuickReplies qrs with
    | ok u => rfl
    | error e => rfl
  · intro hgood
    rw [hred, validateQuickReplies_eq_ok_of_good qrs hgood]

/-- Witness for C10 at a valid single text quick reply. -/
theorem c10_amended_witness :
    createMessage { text := some "hello", attachment := none, quick_replies := none }
        (some [{ content_type := "text", title := some "Pick",
                 payload := some "P1", image_url := none }])
      = .ok { text := some "hello", attachment := none,
              quick_replies := some
                [{ content_type := "text", title := some "Pick",
                   payload := some "P1", image_url := none }] } :=
  ((c10_amended_createMessage
      { text := some "hello", attachment := none, quick_replies := none }).2.2
    [{ content_type := "text", title := some "Pick", payload := some "P1", image_url := none }]
    (by decide)).2 (by decide)
